import Mathlib

/-!
Verification development for the `rust_armbot` repository.

The development shallowly embeds the numeric core of the repository:

* `libs/ledc_servo/src/lib.rs` — the servo duty-cycle model (`Servo::step`,
  `Servo::calc_duty`);
* `rust-armbot/src/util.rs` — the range re-mapping utility `map`, whose
  `f32` arithmetic is modelled exactly: an `f32` value is represented by the
  rational number it denotes, and every operation rounds its exact rational
  result to 24 significant bits with round-to-nearest, ties-to-even.  All
  quantities appearing in this development stay inside the normal range of
  IEEE binary32, where this model agrees with the hardware semantics;
* `rust-armbot/src/gamepad.rs` and `src/gamepad.rs` — the joystick mapper
  (`GamepadConfig::center_range`, `Position::new`, `GamepadImpl::new`,
  `read_raw_state`, `read_state`).

Machine integers (`u32`) are modelled as `Nat` with explicit wrap-around
`% 2^32` where the source performs `u32` addition or subtraction.
-/

attribute [local semireducible] Rat.mul Rat.inv Rat.add Rat.sub

namespace Armbot

/-- `2^32`, the modulus of `u32` arithmetic. -/
def u32Mod : Nat := 4294967296

/-- Wrapping `u32` subtraction: `a - b` modulo `2^32` (release semantics of
Rust `u32` subtraction for operands below `2^32`). -/
def u32sub (a b : Nat) : Nat := (a + u32Mod - b) % u32Mod

/-- Wrapping `u32` addition: `a + b` modulo `2^32`. -/
def u32add (a b : Nat) : Nat := (a + b) % u32Mod

/-- Round a rational to an integer, round-to-nearest with ties to even. -/
def rne (s : ℚ) : ℤ :=
  if s - ⌊s⌋ < 1 / 2 then ⌊s⌋
  else if 1 / 2 < s - ⌊s⌋ then ⌊s⌋ + 1
  else if 2 ∣ ⌊s⌋ then ⌊s⌋ else ⌊s⌋ + 1

/-- Fuel-based `Nat.log 2` (floor of the base-2 logarithm), written by
structural recursion so that it reduces inside the kernel. -/
def nlog2 : ℕ → ℕ → ℕ
  | 0, _ => 0
  | f + 1, n => if 2 ≤ n then nlog2 f (n / 2) + 1 else 0

/-- Fuel-based `Nat.clog 2` (ceiling of the base-2 logarithm), written by
structural recursion so that it reduces inside the kernel. -/
def nclog2 : ℕ → ℕ → ℕ
  | 0, _ => 0
  | f + 1, n => if 2 ≤ n then nclog2 f ((n + 1) / 2) + 1 else 0

/-- `⌊log₂ q⌋` for a rational `q`; agrees with Mathlib's `Int.log 2`
(proved below as `ratLog2_eq`) but reduces inside the kernel. -/
def ratLog2 (q : ℚ) : ℤ :=
  if 1 ≤ q then nlog2 ⌊q⌋₊ ⌊q⌋₊ else -(nclog2 ⌈q⁻¹⌉₊ ⌈q⁻¹⌉₊ : ℕ)

/-- Rounding of a positive rational to 24 significant bits,
round-to-nearest ties-to-even. -/
def rnd24pos (q : ℚ) : ℚ :=
  (rne (q / 2 ^ (ratLog2 q - 23)) : ℚ) * 2 ^ (ratLog2 q - 23)

/-- Exact value of rounding a rational to an IEEE binary32 significand
(24 bits), round-to-nearest ties-to-even, with unbounded exponent.  Every
value computed in this development lies in the normal range of binary32,
where this is exactly the IEEE rounding function. -/
def rnd24 (q : ℚ) : ℚ :=
  if q = 0 then 0
  else if q < 0 then -rnd24pos (-q)
  else rnd24pos q

/-- Rust `as f32` conversion of a `u32` value. -/
def f32ofNat (n : Nat) : ℚ := rnd24 n

/-- `f32` division: exact quotient, rounded to binary32. -/
def f32div (a b : ℚ) : ℚ := rnd24 (a / b)

/-- `f32` multiplication: exact product, rounded to binary32. -/
def f32mul (a b : ℚ) : ℚ := rnd24 (a * b)

/-- Rust `as u32` conversion of an `f32` value: truncation toward zero,
saturating at the bounds of `u32` (the semantics of Rust float-to-int `as`
casts). -/
def f32toU32 (q : ℚ) : Nat :=
  if q ≤ 0 then 0 else min (u32Mod - 1) (Int.toNat ⌊q⌋)

/-- `val.min(from_max).max(from_min)` — the clamp performed by `util::map`
(line 6 of `rust-armbot/src/util.rs`). -/
def clampVal (v fromMin fromMax : Nat) : Nat := max (min v fromMax) fromMin

/-- The `f32` ratio `to_range as f32 / from_range as f32` computed by
`util::map` (lines 3–5 of `rust-armbot/src/util.rs`). -/
def mapRatio (fromMin fromMax toMin toMax : Nat) : ℚ :=
  f32div (f32ofNat (u32sub toMax toMin)) (f32ofNat (u32sub fromMax fromMin))

/-- The exact rational value of the `f32` product
`(from - from_min) as f32 * ratio` computed by `util::map` (line 8). -/
def prodQ (v fromMin fromMax toMin toMax : Nat) : ℚ :=
  f32mul (f32ofNat (u32sub (clampVal v fromMin fromMax) fromMin))
    (mapRatio fromMin fromMax toMin toMax)

/-- The intermediate `to = ((from - from_min) as f32 * ratio) as u32` of
`util::map` (line 8 of `rust-armbot/src/util.rs`). -/
def mapTo (v fromMin fromMax toMin toMax : Nat) : Nat :=
  f32toU32 (prodQ v fromMin fromMax toMin toMax)

/-- `util::map` from `rust-armbot/src/util.rs`: re-maps `v` from
`[fromMin, fromMax]` to `[toMin, toMax]`, inverting the direction when
`invert` is set. -/
def map (v fromMin fromMax toMin toMax : Nat) (invert : Bool) : Nat :=
  let t := mapTo v fromMin fromMax toMin toMax
  if invert then u32sub toMax t else u32add t toMin

/-- Modelled from the spec: the esp-idf crate (`src/` of the repository)
calls `crate::util::map` from its `Position::new`, but that crate's `util`
module is not among the provided source files.  Section 4.1 of the spec
describes the shared RangeMapper as computing
`to = round((clamped_value - from_min) * ratio)` with a floating-point
`ratio = (to_max - to_min) / (from_max - from_min)`, returning
`to_max - to` when inverted and `to_min + to` otherwise.  `round` is taken
as round-to-nearest (half away from zero). -/
def map_spec (v fromMin fromMax toMin toMax : Nat) (invert : Bool) : Nat :=
  let t := (Int.toNat ⌊prodQ v fromMin fromMax toMin toMax + 1 / 2⌋)
  if invert then u32sub toMax t else u32add t toMin

/-! ## The servo duty-cycle model, from `libs/ledc_servo/src/lib.rs`

The `Servo` struct owns a `duty: Range<u32>` (the derived duty bounds), a
direction flag and, through its LEDC driver, the current duty value.  The
state relevant to `step` and `calc_duty` is embedded below; the hardware
driver's duty register becomes the field `currentDuty`. -/

structure ServoState where
  /-- `self.duty.start` — lower duty bound. -/
  dutyStart : Nat
  /-- `self.duty.end` — upper duty bound. -/
  dutyEnd : Nat
  /-- The duty currently held by the LEDC driver (`get_duty`). -/
  currentDuty : Nat
  /-- `self.direction`: `true` = forward, `false` = backward. -/
  direction : Bool
  deriving DecidableEq, Repr

/-- `Servo::calc_duty` (lines 156–163 of `libs/ledc_servo/src/lib.rs`):
`current_duty + step` when moving forward, `current_duty.max(step) - step`
when moving backward. -/
def calc_duty (s : ServoState) (step : Nat) : Nat :=
  if s.direction then u32add s.currentDuty step
  else u32sub (max s.currentDuty step) step

/-- `Servo::step` (lines 110–123 of `libs/ledc_servo/src/lib.rs`): computes
the candidate duty; if `new_duty > self.duty.end || new_duty < self.duty.start`
the step is skipped and `false` is returned, otherwise the candidate is
written to the driver and `true` is returned. -/
def Servo.step (s : ServoState) (step : Nat) : ServoState × Bool :=
  let newDuty := calc_duty s step
  if s.dutyEnd < newDuty ∨ newDuty < s.dutyStart then (s, false)
  else ({ s with currentDuty := newDuty }, true)

/-! ## The joystick mapper, from `rust-armbot/src/gamepad.rs` -/

/-- `GamepadConfig` (lines 12–25 of `rust-armbot/src/gamepad.rs`). -/
structure GamepadConfig where
  joystick_min_value : Nat
  joystick_max_value : Nat
  center_offset : Nat
  use_real_center : Bool
  deriving DecidableEq, Repr

/-- `GamepadConfig::default()` (lines 34–43). -/
def GamepadConfig.default : GamepadConfig :=
  { joystick_min_value := 10
    joystick_max_value := 2757
    center_offset := 50
    use_real_center := true }

/-- A `Range<u32>`: `start..stop` (the source's field `end` is a Lean
keyword and is named `stop` here). -/
structure URange where
  start : Nat
  stop : Nat
  deriving DecidableEq, Repr

/-- `Range::<u32>::contains`: `start ≤ v ∧ v < stop`. -/
def URange.containsVal (r : URange) (v : Nat) : Bool :=
  decide (r.start ≤ v ∧ v < r.stop)

/-- `GamepadConfig::center_range` (lines 29–31 of
`rust-armbot/src/gamepad.rs`): `offset - center_offset..offset + center_offset`
in `u32` arithmetic. -/
def GamepadConfig.center_range (c : GamepadConfig) (offset : Nat) : URange :=
  ⟨u32sub offset c.center_offset, u32add offset c.center_offset⟩

/-- `Position` (lines 78–84 of `rust-armbot/src/gamepad.rs`). -/
inductive Position where
  | Low (m : Nat)
  | Center
  | High (m : Nat)
  deriving DecidableEq, Repr

/-- `Position::new` (lines 87–116 of `rust-armbot/src/gamepad.rs`), the
esp-hal variant: dead-zone test, then `Low` via the inverted map from
`[joystick_min_value, center_range.start]`, or `High` via the direct map
from `[center_range.end, joystick_max_value]`. -/
def Position.new (val : Nat) (config : GamepadConfig) (center_range : URange)
    (output : URange) : Position :=
  if center_range.containsVal val then .Center
  else if val < center_range.start then
    .Low (map val config.joystick_min_value center_range.start
      output.start output.stop true)
  else
    .High (map val center_range.stop config.joystick_max_value
      output.start output.stop false)

/-- `Position::new` (lines 90–119 of `src/gamepad.rs`), the esp-idf
variant: textually identical branch structure, but calling that crate's own
`util::map`, which is not under the provided sources and is modelled from
the spec as `map_spec`. -/
def PositionIdf.new (val : Nat) (config : GamepadConfig) (center_range : URange)
    (output : URange) : Position :=
  if center_range.containsVal val then .Center
  else if val < center_range.start then
    .Low (map_spec val config.joystick_min_value center_range.start
      output.start output.stop true)
  else
    .High (map_spec val center_range.stop config.joystick_max_value
      output.start output.stop false)

/-- Two `Position` values built from the same constructor (`Low`/`Center`/
`High`), irrespective of the magnitude. -/
def Position.sameKind : Position → Position → Prop
  | .Low _, .Low _ => True
  | .Center, .Center => True
  | .High _, .High _ => True
  | _, _ => False

/-- `Error` (lines 6–10 of `rust-armbot/src/error.rs`); the payloads of the
`Servo` and `Other` variants play no role here and are omitted. -/
inductive Error where
  | Adc
  | Servo
  | Other
  deriving DecidableEq, Repr

/-- `RawState` (lines 53–59 of `rust-armbot/src/gamepad.rs`). -/
structure RawState where
  base_rotator : Nat
  shoulder : Nat
  elbow : Nat
  gripper : Nat
  deriving DecidableEq, Repr

/-- `State` (lines 61–67 of `rust-armbot/src/gamepad.rs`). -/
structure State where
  base_rotator : Position
  shoulder : Position
  elbow : Position
  gripper : Position
  deriving DecidableEq, Repr

/-- The inner `normalize_value` of `read_raw_state` (lines 215–218):
`val.min(joystick_max_value).max(joystick_min_value)`. -/
def normalize_value (val : Nat) (config : GamepadConfig) : Nat :=
  max (min val config.joystick_max_value) config.joystick_min_value

/-- `GamepadImpl::read_raw_state` (lines 197–228 of
`rust-armbot/src/gamepad.rs`).  The four one-shot ADC reads are passed in as
`Except Unit Nat` values (the hardware read either fails or yields a raw
sample); each failure is mapped to `Error::Adc` and aborts the call via `?`. -/
def read_raw_state (config : GamepadConfig)
    (r0 r1 r2 r3 : Except Unit Nat) : Except Error RawState := do
  let base_rotator_angle ← r0.mapError fun _ => Error.Adc
  let shoulder_angle ← r1.mapError fun _ => Error.Adc
  let elbow_angle ← r2.mapError fun _ => Error.Adc
  let gripper_angle ← r3.mapError fun _ => Error.Adc
  .ok
    { base_rotator := normalize_value base_rotator_angle config
      shoulder := normalize_value shoulder_angle config
      elbow := normalize_value elbow_angle config
      gripper := normalize_value gripper_angle config }

/-- `GamepadImpl::read_state` (lines 230–245 of `rust-armbot/src/gamepad.rs`):
read the raw state, then map each axis independently through
`Position::new` with that axis's stored center range. -/
def read_state (config : GamepadConfig)
    (base_rotator_center shoulder_center elbow_center gripper_center : URange)
    (output : URange) (r0 r1 r2 r3 : Except Unit Nat) : Except Error State := do
  let st ← read_raw_state config r0 r1 r2 r3
  .ok
    { base_rotator := Position.new st.base_rotator config base_rotator_center output
      shoulder := Position.new st.shoulder config shoulder_center output
      elbow := Position.new st.elbow config elbow_center output
      gripper := Position.new st.gripper config gripper_center output }

/-- The center-range computation of `GamepadImpl::new` (lines 158–179 of
`rust-armbot/src/gamepad.rs`): every axis starts from the default center
range `center_range(joystick_max_value / 2)`; when `use_real_center` is set,
one raw read replaces each axis's range by `center_range` of that axis's
live reading.  Returns the four ranges
(base rotator, shoulder, elbow, gripper). -/
def gamepad_new (config : GamepadConfig) (r0 r1 r2 r3 : Except Unit Nat) :
    Except Error (URange × URange × URange × URange) :=
  let d := config.center_range (config.joystick_max_value / 2)
  if config.use_real_center then
    match read_raw_state config r0 r1 r2 r3 with
    | .error e => .error e
    | .ok raw =>
      .ok (config.center_range raw.base_rotator,
        config.center_range raw.shoulder,
        config.center_range raw.elbow,
        config.center_range raw.gripper)
  else .ok (d, d, d, d)

/-! ## Properties of the binary32 rounding model -/

theorem nlog2_eq (f n : Nat) (h : n ≤ f) : nlog2 f n = Nat.log 2 n := by
  induction f generalizing n with
  | zero =>
    have hn : n = 0 := by omega
    simp [nlog2, hn]
  | succ f ih =>
    by_cases h2 : 2 ≤ n
    · rw [show nlog2 (f + 1) n = nlog2 f (n / 2) + 1 by simp [nlog2, h2],
        ih (n / 2) (by omega), Nat.log_of_one_lt_of_le one_lt_two h2]
    · rw [show nlog2 (f + 1) n = 0 by simp [nlog2, h2], Nat.log_of_lt (by omega)]

theorem nclog2_eq (f n : Nat) (h : n ≤ f) : nclog2 f n = Nat.clog 2 n := by
  induction f generalizing n with
  | zero =>
    have hn : n = 0 := by omega
    simp [nclog2, hn]
  | succ f ih =>
    by_cases h2 : 2 ≤ n
    · rw [show nclog2 (f + 1) n = nclog2 f ((n + 1) / 2) + 1 by simp [nclog2, h2],
        ih ((n + 1) / 2) (by omega), Nat.clog_of_two_le one_lt_two h2,
        show (n + 2 - 1) / 2 = (n + 1) / 2 by omega]
    · rw [show nclog2 (f + 1) n = 0 by simp [nclog2, h2],
        Nat.clog_of_right_le_one (by omega)]

theorem ratLog2_eq (q : ℚ) : ratLog2 q = Int.log 2 q := by
  unfold ratLog2
  split
  · rw [Int.log_of_one_le_right 2 (by assumption), nlog2_eq _ _ le_rfl]
  · rw [Int.log_of_right_le_one 2 (by linarith), nclog2_eq _ _ le_rfl]

theorem rne_floor_le (s : ℚ) : ⌊s⌋ ≤ rne s := by
  unfold rne
  split_ifs <;> omega

theorem rne_le_floor_add_one (s : ℚ) : rne s ≤ ⌊s⌋ + 1 := by
  unfold rne
  split_ifs <;> omega

theorem rne_le (s : ℚ) : (rne s : ℚ) ≤ s + 1 / 2 := by
  have h1 : (⌊s⌋ : ℚ) ≤ s := Int.floor_le s
  have h2 : s < ⌊s⌋ + 1 := Int.lt_floor_add_one s
  unfold rne
  split_ifs <;> push_cast <;> linarith

theorem le_rne (s : ℚ) : s - 1 / 2 ≤ (rne s : ℚ) := by
  have h1 : (⌊s⌋ : ℚ) ≤ s := Int.floor_le s
  have h2 : s < ⌊s⌋ + 1 := Int.lt_floor_add_one s
  unfold rne
  split_ifs <;> push_cast <;> linarith

theorem rne_mono {s t : ℚ} (h : s ≤ t) : rne s ≤ rne t := by
  have hf : ⌊s⌋ ≤ ⌊t⌋ := Int.floor_mono h
  rcases lt_or_eq_of_le hf with hlt | heq
  · calc rne s ≤ ⌊s⌋ + 1 := rne_le_floor_add_one s
    _ ≤ ⌊t⌋ := by omega
    _ ≤ rne t := rne_floor_le t
  · have hst : s - ⌊s⌋ ≤ t - ⌊t⌋ := by
      rw [← heq]; linarith
    unfold rne
    rw [heq] at hst ⊢
    split_ifs <;> first | omega | linarith


theorem scaled_bounds (q : ℚ) (hq : 0 < q) :
    (8388608 : ℚ) * 2 ^ (ratLog2 q - 23) ≤ q ∧
      q < 16777216 * 2 ^ (ratLog2 q - 23) := by
  have h1 : (2 : ℚ) ^ Int.log 2 q ≤ q := Int.zpow_log_le_self (by norm_num) hq
  have h2 : q < 2 ^ (Int.log 2 q + 1) := Int.lt_zpow_succ_log_self (by norm_num) q
  have e1 : (2 : ℚ) ^ Int.log 2 q = 8388608 * 2 ^ (Int.log 2 q - 23) := by
    rw [show Int.log 2 q = 23 + (Int.log 2 q - 23) by ring,
      zpow_add₀ (two_ne_zero) 23 (Int.log 2 q - 23)]
    norm_num
  have e2 : (2 : ℚ) ^ (Int.log 2 q + 1) = 16777216 * 2 ^ (Int.log 2 q - 23) := by
    rw [show Int.log 2 q + 1 = 24 + (Int.log 2 q - 23) by ring,
      zpow_add₀ (two_ne_zero) 24 (Int.log 2 q - 23)]
    norm_num
  rw [ratLog2_eq]
  exact ⟨e1 ▸ h1, e2 ▸ h2⟩

theorem rnd24pos_eq (q : ℚ) :
    rnd24pos q = (rne (q / 2 ^ (ratLog2 q - 23)) : ℚ) * 2 ^ (ratLog2 q - 23) :=
  rfl

theorem rnd24pos_le (q : ℚ) (hq : 0 < q) :
    rnd24pos q ≤ q + q / 16777216 := by
  obtain ⟨hs1, _⟩ := scaled_bounds q hq
  set e : ℤ := ratLog2 q - 23 with he
  have hp : (0 : ℚ) < 2 ^ e := by positivity
  have hmul : q / 2 ^ e * 2 ^ e = q := div_mul_cancel₀ q hp.ne'
  calc rnd24pos q = (rne (q / 2 ^ e) : ℚ) * 2 ^ e := rnd24pos_eq q
    _ ≤ (q / 2 ^ e + 1 / 2) * 2 ^ e :=
        mul_le_mul_of_nonneg_right (rne_le _) hp.le
    _ = q + 2 ^ e / 2 := by rw [add_mul, hmul]; ring
    _ ≤ q + q / 16777216 := by linarith

theorem le_rnd24pos (q : ℚ) (hq : 0 < q) :
    q - q / 16777216 ≤ rnd24pos q := by
  obtain ⟨hs1, _⟩ := scaled_bounds q hq
  set e : ℤ := ratLog2 q - 23 with he
  have hp : (0 : ℚ) < 2 ^ e := by positivity
  have hmul : q / 2 ^ e * 2 ^ e = q := div_mul_cancel₀ q hp.ne'
  calc q - q / 16777216 ≤ q - 2 ^ e / 2 := by linarith
    _ = (q / 2 ^ e - 1 / 2) * 2 ^ e := by rw [sub_mul, hmul]; ring
    _ ≤ (rne (q / 2 ^ e) : ℚ) * 2 ^ e :=
        mul_le_mul_of_nonneg_right (le_rne _) hp.le
    _ = rnd24pos q := (rnd24pos_eq q).symm

theorem rnd24pos_pos (q : ℚ) (hq : 0 < q) : 0 < rnd24pos q := by
  have h := le_rnd24pos q hq
  nlinarith

theorem rnd24pos_mono {x y : ℚ} (hx : 0 < x) (hxy : x ≤ y) :
    rnd24pos x ≤ rnd24pos y := by
  have hy : 0 < y := hx.trans_le hxy
  have hlogm : ratLog2 x ≤ ratLog2 y := by
    rw [ratLog2_eq, ratLog2_eq]; exact Int.log_mono_right hx hxy
  rcases eq_or_lt_of_le hlogm with heq | hlt
  · rw [rnd24pos_eq, rnd24pos_eq, ← heq]
    have hp : (0 : ℚ) < 2 ^ (ratLog2 x - 23) := by positivity
    have hdiv : x / 2 ^ (ratLog2 x - 23) ≤ y / 2 ^ (ratLog2 x - 23) :=
      div_le_div_of_nonneg_right hxy hp.le
    exact mul_le_mul_of_nonneg_right
      (by exact_mod_cast rne_mono hdiv) hp.le
  · obtain ⟨_, hx2⟩ := scaled_bounds x hx
    obtain ⟨hy1, _⟩ := scaled_bounds y hy
    have hpx : (0 : ℚ) < 2 ^ (ratLog2 x - 23) := by positivity
    have hpy : (0 : ℚ) < 2 ^ (ratLog2 y - 23) := by positivity
    have hfx : (rne (x / 2 ^ (ratLog2 x - 23)) : ℚ) ≤ 16777216 := by
      have hlt' : x / 2 ^ (ratLog2 x - 23) < 16777216 := by
        rw [div_lt_iff₀ hpx]; linarith
      have hfl : ⌊x / 2 ^ (ratLog2 x - 23)⌋ < 16777216 :=
        Int.floor_lt.2 (by exact_mod_cast hlt')
      have := rne_le_floor_add_one (x / 2 ^ (ratLog2 x - 23))
      exact_mod_cast by omega
    have hfy : (8388608 : ℚ) ≤ (rne (y / 2 ^ (ratLog2 y - 23)) : ℚ) := by
      have hge : (8388608 : ℚ) ≤ y / 2 ^ (ratLog2 y - 23) := by
        rw [le_div_iff₀ hpy]; linarith
      have hfl : (8388608 : ℤ) ≤ ⌊y / 2 ^ (ratLog2 y - 23)⌋ :=
        Int.le_floor.2 (by exact_mod_cast hge)
      have := rne_floor_le (y / 2 ^ (ratLog2 y - 23))
      exact_mod_cast by omega
    have hexp : (2 : ℚ) ^ (ratLog2 x + 1) ≤ 2 ^ (ratLog2 y) :=
      zpow_le_zpow_right₀ (by norm_num) (by omega)
    have ex1 : (16777216 : ℚ) * 2 ^ (ratLog2 x - 23) = 2 ^ (ratLog2 x + 1) := by
      rw [show ratLog2 x + 1 = 24 + (ratLog2 x - 23) by ring,
        zpow_add₀ (two_ne_zero) 24 (ratLog2 x - 23)]
      norm_num
    have ex2 : (8388608 : ℚ) * 2 ^ (ratLog2 y - 23) = 2 ^ (ratLog2 y) := by
      rw [show ratLog2 y = 23 + (ratLog2 y - 23) by ring,
        zpow_add₀ (two_ne_zero) 23 (ratLog2 y - 23)]
      norm_num
    calc rnd24pos x = (rne (x / 2 ^ (ratLog2 x - 23)) : ℚ) * 2 ^ (ratLog2 x - 23) :=
          rnd24pos_eq x
      _ ≤ 16777216 * 2 ^ (ratLog2 x - 23) :=
          mul_le_mul_of_nonneg_right hfx hpx.le
      _ = 2 ^ (ratLog2 x + 1) := ex1
      _ ≤ 2 ^ (ratLog2 y) := hexp
      _ = 8388608 * 2 ^ (ratLog2 y - 23) := ex2.symm
      _ ≤ (rne (y / 2 ^ (ratLog2 y - 23)) : ℚ) * 2 ^ (ratLog2 y - 23) :=
          mul_le_mul_of_nonneg_right hfy hpy.le
      _ = rnd24pos y := (rnd24pos_eq y).symm

theorem rnd24_nonneg (q : ℚ) (hq : 0 ≤ q) : 0 ≤ rnd24 q := by
  unfold rnd24
  split_ifs with h0 hneg
  · exact le_rfl
  · linarith
  · exact (rnd24pos_pos q (lt_of_le_of_ne hq (Ne.symm h0))).le

theorem rnd24_le (q : ℚ) (hq : 0 ≤ q) : rnd24 q ≤ q + q / 16777216 := by
  unfold rnd24
  split_ifs with h0 hneg
  · rw [h0]; norm_num
  · linarith
  · exact rnd24pos_le q (lt_of_le_of_ne hq (Ne.symm h0))

theorem le_rnd24 (q : ℚ) (hq : 0 ≤ q) : q - q / 16777216 ≤ rnd24 q := by
  unfold rnd24
  split_ifs with h0 hneg
  · rw [h0]; norm_num
  · linarith
  · exact le_rnd24pos q (lt_of_le_of_ne hq (Ne.symm h0))

theorem rnd24_mono {x y : ℚ} (hx : 0 ≤ x) (hxy : x ≤ y) :
    rnd24 x ≤ rnd24 y := by
  rcases eq_or_lt_of_le hx with h0 | hpos
  · rw [← h0]
    have : rnd24 0 = 0 := by unfold rnd24; simp
    rw [this]
    exact rnd24_nonneg y (by linarith)
  · have hy : 0 < y := hpos.trans_le hxy
    unfold rnd24
    rw [if_neg hpos.ne', if_neg (not_lt.2 hpos.le), if_neg hy.ne',
      if_neg (not_lt.2 hy.le)]
    exact rnd24pos_mono hpos hxy

theorem f32toU32_le (q : ℚ) (T : ℕ) (h : q < T + 1) : f32toU32 q ≤ T := by
  unfold f32toU32
  split_ifs with h0
  · exact Nat.zero_le T
  · refine le_trans (min_le_right _ _) ?_
    have hfl : ⌊q⌋ < (T : ℤ) + 1 := by
      apply Int.floor_lt.2
      push_cast
      exact h
    omega

theorem f32toU32_mono {x y : ℚ} (h : x ≤ y) : f32toU32 x ≤ f32toU32 y := by
  unfold f32toU32
  split_ifs with h1 h2
  · exact Nat.zero_le _
  · exact Nat.zero_le _
  · linarith
  · have := Int.floor_mono h
    have h2' : (0 : ℚ) < x := lt_of_not_le h1
    omega

theorem u32sub_eq (a b : Nat) (h1 : b ≤ a) (h2 : a < u32Mod) :
    u32sub a b = a - b := by
  unfold u32sub
  rw [show a + u32Mod - b = u32Mod + (a - b) by omega, Nat.add_mod_left,
    Nat.mod_eq_of_lt (by omega)]

theorem u32add_eq (a b : Nat) (h : a + b < u32Mod) : u32add a b = a + b := by
  unfold u32add
  exact Nat.mod_eq_of_lt h

theorem clampVal_le (v fromMin fromMax : Nat) (h : fromMin ≤ fromMax) :
    clampVal v fromMin fromMax ≤ fromMax := by
  unfold clampVal
  omega

theorem le_clampVal (v fromMin fromMax : Nat) :
    fromMin ≤ clampVal v fromMin fromMax := by
  unfold clampVal
  omega

theorem prodQ_nonneg (v fromMin fromMax toMin toMax : Nat) :
    0 ≤ prodQ v fromMin fromMax toMin toMax := by
  unfold prodQ f32mul
  apply rnd24_nonneg
  apply mul_nonneg
  · exact rnd24_nonneg _ (by positivity)
  · unfold mapRatio f32div
    apply rnd24_nonneg
    apply div_nonneg
    · exact rnd24_nonneg _ (by positivity)
    · exact rnd24_nonneg _ (by positivity)

/-- Central bound: the exact rational value of the `f32` product computed by
`util::map` stays below `(to_range) + 1` whenever the target range is at
most `2^21` wide.  The rounding of `ratio` and of the product can push the
value slightly above `to_range` (and for target ranges near `2^24` even
past `to_range + 1`, see the counterexamples), but each of the four
roundings loses at most one part in `2^24`. -/
theorem prodQ_lt (v fromMin fromMax toMin toMax : Nat)
    (hf : fromMin < fromMax) (ht : toMin < toMax)
    (hfmax : fromMax < u32Mod) (htmax : toMax < u32Mod)
    (hsmall : toMax - toMin ≤ 2097152) :
    prodQ v fromMin fromMax toMin toMax < (toMax - toMin : ℕ) + 1 := by
  have hTsub : u32sub toMax toMin = toMax - toMin :=
    u32sub_eq toMax toMin (by omega) htmax
  have hFsub : u32sub fromMax fromMin = fromMax - fromMin :=
    u32sub_eq fromMax fromMin (by omega) hfmax
  have hdsub : u32sub (clampVal v fromMin fromMax) fromMin =
      clampVal v fromMin fromMax - fromMin :=
    u32sub_eq _ _ (le_clampVal v fromMin fromMax)
      (lt_of_le_of_lt (clampVal_le v fromMin fromMax (by omega)) hfmax)
  set T : ℕ := toMax - toMin with hT
  set F : ℕ := fromMax - fromMin with hF
  set dN : ℕ := clampVal v fromMin fromMax - fromMin with hd
  have hdF : dN ≤ F := by
    have := clampVal_le v fromMin fromMax (by omega)
    omega
  have hF1 : 1 ≤ F := by omega
  have hT1 : 1 ≤ T := by omega
  -- rational abbreviations
  set Tq : ℚ := (T : ℚ) with hTq
  set Fq : ℚ := (F : ℚ) with hFq
  set dq : ℚ := (dN : ℚ) with hdq
  have hTq0 : 0 ≤ Tq := by positivity
  have hFq1 : 1 ≤ Fq := by rw [hFq]; exact_mod_cast hF1
  have hdqF : dq ≤ Fq := by rw [hdq, hFq]; exact_mod_cast hdF
  have hdq0 : 0 ≤ dq := by positivity
  set Tf : ℚ := rnd24 Tq with hTf
  set Ff : ℚ := rnd24 Fq with hFf
  set r : ℚ := rnd24 (Tf / Ff) with hr
  set df : ℚ := rnd24 dq with hdf
  have hTf0 : 0 ≤ Tf := rnd24_nonneg Tq hTq0
  have hFfge : Fq - Fq / 16777216 ≤ Ff := le_rnd24 Fq (by linarith)
  have hFfpos : 0 < Ff := by
    have : (0 : ℚ) < Fq - Fq / 16777216 := by linarith
    linarith
  have hr0 : 0 ≤ r := rnd24_nonneg _ (div_nonneg hTf0 hFfpos.le)
  have hdf0 : 0 ≤ df := rnd24_nonneg dq hdq0
  have hTfle : Tf ≤ Tq * (16777217 / 16777216) := by
    have := rnd24_le Tq hTq0
    linarith
  have hdfle : df ≤ Fq * (16777217 / 16777216) := by
    have := rnd24_le dq hdq0
    linarith
  have hrFf : r * Ff ≤ Tf * (16777217 / 16777216) := by
    have h3 := rnd24_le (Tf / Ff) (div_nonneg hTf0 hFfpos.le)
    have h3' : r ≤ Tf / Ff * (16777217 / 16777216) := by linarith
    calc r * Ff ≤ Tf / Ff * (16777217 / 16777216) * Ff :=
          mul_le_mul_of_nonneg_right h3' hFfpos.le
      _ = Tf * (16777217 / 16777216) := by
          field_simp
          ring
  -- unfold the goal product
  have hgoal : prodQ v fromMin fromMax toMin toMax = rnd24 (df * r) := by
    unfold prodQ f32mul mapRatio f32div f32ofNat
    rw [hTsub, hFsub, hdsub]
  have hp0 : 0 ≤ rnd24 (df * r) := rnd24_nonneg _ (mul_nonneg hdf0 hr0)
  have hple : rnd24 (df * r) ≤ df * r * (16777217 / 16777216) := by
    have := rnd24_le (df * r) (mul_nonneg hdf0 hr0)
    linarith
  set p : ℚ := rnd24 (df * r) with hpdef
  -- p * Ff ≤ Fq * Tf * c^3  where c = 16777217/16777216
  have step1 : p * Ff ≤ df * (r * Ff) * (16777217 / 16777216) := by
    calc p * Ff ≤ df * r * (16777217 / 16777216) * Ff :=
          mul_le_mul_of_nonneg_right hple hFfpos.le
      _ = df * (r * Ff) * (16777217 / 16777216) := by ring
  have step2 : df * (r * Ff) ≤ (Fq * (16777217 / 16777216)) *
      (Tf * (16777217 / 16777216)) := by
    apply mul_le_mul hdfle hrFf (mul_nonneg hr0 hFfpos.le)
    positivity
  have step3 : p * Ff ≤ Fq * Tf * (16777217 / 16777216) ^ 3 := by
    have h2' : df * (r * Ff) * (16777217 / 16777216) ≤
        (Fq * (16777217 / 16777216)) * (Tf * (16777217 / 16777216)) *
          (16777217 / 16777216) :=
      mul_le_mul_of_nonneg_right step2 (by norm_num)
    calc p * Ff ≤ df * (r * Ff) * (16777217 / 16777216) := step1
      _ ≤ (Fq * (16777217 / 16777216)) * (Tf * (16777217 / 16777216)) *
          (16777217 / 16777216) := h2'
      _ = Fq * Tf * (16777217 / 16777216) ^ 3 := by ring
  have step4 : p * Ff ≤ Fq * Tq * (16777217 / 16777216) ^ 4 := by
    have : Fq * Tf * (16777217 / 16777216) ^ 3 ≤
        Fq * (Tq * (16777217 / 16777216)) * (16777217 / 16777216) ^ 3 := by
      have hc3 : (0 : ℚ) ≤ (16777217 / 16777216) ^ 3 := by norm_num
      have := mul_le_mul_of_nonneg_left hTfle (by linarith : (0:ℚ) ≤ Fq)
      nlinarith
    calc p * Ff ≤ Fq * Tf * (16777217 / 16777216) ^ 3 := step3
      _ ≤ Fq * (Tq * (16777217 / 16777216)) * (16777217 / 16777216) ^ 3 := this
      _ = Fq * Tq * (16777217 / 16777216) ^ 4 := by ring
  -- lower bound for Ff against Fq
  have hFflow : Fq * (16777215 / 16777216) ≤ Ff := by
    have : Fq - Fq / 16777216 = Fq * (16777215 / 16777216) := by ring
    linarith [hFfge, this.symm.le]
  have step5 : p * (Fq * (16777215 / 16777216)) ≤ Fq * Tq *
      (16777217 / 16777216) ^ 4 := by
    calc p * (Fq * (16777215 / 16777216)) ≤ p * Ff :=
          mul_le_mul_of_nonneg_left hFflow hp0
      _ ≤ Fq * Tq * (16777217 / 16777216) ^ 4 := step4
  have hFqpos : 0 < Fq := by linarith
  have step6 : p * (16777215 / 16777216) ≤ Tq * (16777217 / 16777216) ^ 4 := by
    have := step5
    have hrw : p * (Fq * (16777215 / 16777216)) =
        Fq * (p * (16777215 / 16777216)) := by ring
    have hrw2 : Fq * Tq * (16777217 / 16777216) ^ 4 =
        Fq * (Tq * (16777217 / 16777216) ^ 4) := by ring
    rw [hrw, hrw2] at this
    exact le_of_mul_le_mul_left this hFqpos
  -- numeric finish: Tq ≤ 2^21
  have hTbound : Tq ≤ 2097152 := by rw [hTq]; exact_mod_cast hsmall
  have hc4 : ((16777217 : ℚ) / 16777216) ^ 4 ≤ 1 + 5 / 16777216 := by
    norm_num
  have final : Tq * (16777217 / 16777216) ^ 4 <
      (Tq + 1) * (16777215 / 16777216) := by
    have h1 : Tq * ((16777217 : ℚ) / 16777216) ^ 4 ≤
        Tq * (1 + 5 / 16777216) := mul_le_mul_of_nonneg_left hc4 hTq0
    linarith
  have : p * (16777215 / 16777216) < (Tq + 1) * (16777215 / 16777216) := by
    linarith
  have hplt : p < Tq + 1 := lt_of_mul_lt_mul_right this (by norm_num)
  rw [hgoal]
  exact hplt

theorem mapRatio_nonneg (fromMin fromMax toMin toMax : Nat) :
    0 ≤ mapRatio fromMin fromMax toMin toMax := by
  unfold mapRatio f32div
  apply rnd24_nonneg
  apply div_nonneg
  · exact rnd24_nonneg _ (by positivity)
  · exact rnd24_nonneg _ (by positivity)

theorem mapTo_le (v fromMin fromMax toMin toMax : Nat)
    (hf : fromMin < fromMax) (ht : toMin < toMax)
    (hfmax : fromMax < u32Mod) (htmax : toMax < u32Mod)
    (hsmall : toMax - toMin ≤ 2097152) :
    mapTo v fromMin fromMax toMin toMax ≤ toMax - toMin :=
  f32toU32_le _ _ (prodQ_lt v fromMin fromMax toMin toMax hf ht hfmax htmax hsmall)

theorem mapTo_mono (v1 v2 fromMin fromMax toMin toMax : Nat)
    (h12 : v1 ≤ v2) (hfm : fromMin ≤ fromMax) (hfmax : fromMax < u32Mod) :
    mapTo v1 fromMin fromMax toMin toMax ≤
      mapTo v2 fromMin fromMax toMin toMax := by
  have hc : clampVal v1 fromMin fromMax ≤ clampVal v2 fromMin fromMax := by
    unfold clampVal; omega
  have hs1 : u32sub (clampVal v1 fromMin fromMax) fromMin =
      clampVal v1 fromMin fromMax - fromMin :=
    u32sub_eq _ _ (le_clampVal v1 fromMin fromMax)
      (lt_of_le_of_lt (clampVal_le v1 fromMin fromMax hfm) hfmax)
  have hs2 : u32sub (clampVal v2 fromMin fromMax) fromMin =
      clampVal v2 fromMin fromMax - fromMin :=
    u32sub_eq _ _ (le_clampVal v2 fromMin fromMax)
      (lt_of_le_of_lt (clampVal_le v2 fromMin fromMax hfm) hfmax)
  unfold mapTo prodQ f32mul f32ofNat
  rw [hs1, hs2]
  apply f32toU32_mono
  apply rnd24_mono
  · apply mul_nonneg
    · exact rnd24_nonneg _ (by positivity)
    · exact mapRatio_nonneg fromMin fromMax toMin toMax
  · apply mul_le_mul_of_nonneg_right _ (mapRatio_nonneg fromMin fromMax toMin toMax)
    apply rnd24_mono (by positivity)
    have : clampVal v1 fromMin fromMax - fromMin ≤
        clampVal v2 fromMin fromMax - fromMin := by omega
    exact_mod_cast this

theorem map_mem (v fromMin fromMax toMin toMax : Nat) (invert : Bool)
    (hf : fromMin < fromMax) (ht : toMin < toMax)
    (hfmax : fromMax < u32Mod) (htmax : toMax < u32Mod)
    (hsmall : toMax - toMin ≤ 2097152) :
    toMin ≤ map v fromMin fromMax toMin toMax invert ∧
      map v fromMin fromMax toMin toMax invert ≤ toMax := by
  have hto := mapTo_le v fromMin fromMax toMin toMax hf ht hfmax htmax hsmall
  unfold map
  cases invert with
  | true =>
    rw [if_pos rfl, u32sub_eq _ _ (by omega) htmax]
    omega
  | false =>
    rw [if_neg (by simp), u32add_eq _ _ (by omega)]
    omega


theorem rnd24_zero : rnd24 0 = 0 := by
  unfold rnd24
  simp

theorem f32toU32_zero : f32toU32 0 = 0 := by
  unfold f32toU32
  simp

theorem mapTo_self_min (fromMin fromMax toMin toMax : Nat)
    (h : fromMin < u32Mod) :
    mapTo fromMin fromMin fromMax toMin toMax = 0 := by
  have hc : clampVal fromMin fromMin fromMax = fromMin := by
    unfold clampVal; omega
  unfold mapTo prodQ f32mul f32ofNat
  rw [hc, u32sub_eq _ _ le_rfl h, Nat.sub_self]
  push_cast
  rw [rnd24_zero, zero_mul, rnd24_zero, f32toU32_zero]

/-! ## Claim theorems -/

/-- C1, counterexample: with duty bounds `[400, 1200)`, current duty `1190`
and direction forward, `step(10)` computes the candidate `1200`, which lies
outside the half-open interval `[duty_min, duty_max) = [400, 1200)`; yet
the code applies it and returns `true`, because the source only rejects
candidates with `new_duty > duty.end`.  This refutes the claim that `step`
never writes a duty outside `[duty_min, duty_max)`. -/
theorem servo_step_writes_duty_max :
    calc_duty ⟨400, 1200, 1190, true⟩ 10 = 1200 ∧
      ¬ ((400 : Nat) ≤ 1200 ∧ (1200 : Nat) < 1200) ∧
      Servo.step ⟨400, 1200, 1190, true⟩ 10 = (⟨400, 1200, 1200, true⟩, true) := by
  refine ⟨by decide, by decide, by decide⟩

/-- C1, amended: `Servo::step` never writes a duty value outside the
closed interval `[duty_min, duty_max]`: when the step is applied (`true` is
returned) the new duty lies in `[duty_min, duty_max]`; when the candidate
falls outside that closed interval the state is unchanged and `false` is
returned; and whenever `false` is returned nothing was written. -/
theorem servo_step_closed_bounds (s : ServoState) (delta : Nat) :
    ((Servo.step s delta).2 = true →
      s.dutyStart ≤ (Servo.step s delta).1.currentDuty ∧
        (Servo.step s delta).1.currentDuty ≤ s.dutyEnd) ∧
      ((Servo.step s delta).2 = false → (Servo.step s delta).1 = s) ∧
      ((calc_duty s delta < s.dutyStart ∨ s.dutyEnd < calc_duty s delta) →
        Servo.step s delta = (s, false)) := by
  unfold Servo.step
  by_cases h : s.dutyEnd < calc_duty s delta ∨ calc_duty s delta < s.dutyStart
  · simp only [if_pos h]
    exact ⟨by simp, by simp, by simp⟩
  · simp only [if_neg h]
    push_neg at h
    exact ⟨fun _ => ⟨h.2, h.1⟩, by simp, fun hc => absurd hc (by omega)⟩

/-- C1 witness: the spec's own end-to-end example — bounds `[400, 1200)`,
current duty `1195`, forward `step(10)`: candidate `1205` is out of bounds,
so the state is unchanged and `false` is returned. -/
theorem servo_step_closed_bounds_witness :
    Servo.step ⟨400, 1200, 1195, true⟩ 10 = (⟨400, 1200, 1195, true⟩, false) :=
  (servo_step_closed_bounds ⟨400, 1200, 1195, true⟩ 10).2.2
    (Or.inr (by decide))

/-- C5: with direction backward, the candidate duty computed by
`Servo::calc_duty` equals `max(current_duty, delta) - delta` as a plain
(non-wrapping) natural-number subtraction — the `u32` subtraction in the
source can never underflow — and when `delta` exceeds the current duty the
candidate is exactly `0`. -/
theorem calc_duty_backward_saturates (s : ServoState) (delta : Nat)
    (hdir : s.direction = false)
    (hcur : s.currentDuty < u32Mod) (hdelta : delta < u32Mod) :
    calc_duty s delta = max s.currentDuty delta - delta ∧
      (s.currentDuty < delta → calc_duty s delta = 0) := by
  unfold calc_duty
  rw [hdir]
  simp only [Bool.false_eq_true, if_false]
  have heq : u32sub (max s.currentDuty delta) delta =
      max s.currentDuty delta - delta :=
    u32sub_eq _ _ (le_max_right _ _) (by omega)
  exact ⟨heq, fun h => by rw [heq]; omega⟩

/-- C5 witness: current duty `5`, direction backward, `delta = 7`: the
candidate is `max 5 7 - 7 = 0`; no underflow. -/
theorem calc_duty_backward_saturates_witness :
    calc_duty ⟨0, 0, 5, false⟩ 7 = max 5 7 - 7 ∧
      ((5 : Nat) < 7 → calc_duty ⟨0, 0, 5, false⟩ 7 = 0) :=
  calc_duty_backward_saturates ⟨0, 0, 5, false⟩ 7 rfl (by decide) (by decide)


/-- C2, counterexample: with the non-empty intervals `[0, 1] → [0, 16777219]`
(`16777219 = 2^24 + 3`) and input `1`, `util::map` returns `16777220`,
outside `[to_min, to_max]`: the `f32` conversion of `16777219` already
rounds up to `16777220`, and the cast back truncates that value unchanged. -/
theorem map_output_escapes_range :
    (0 : Nat) < 1 ∧ (0 : Nat) < 16777219 ∧
      map 1 0 1 0 16777219 false = 16777220 ∧
      ¬ map 1 0 1 0 16777219 false ≤ 16777219 := by
  refine ⟨by decide, by decide, by decide, by decide⟩

/-- C2, amended: for every input value (clamping makes out-of-range inputs
harmless) and both values of the invert flag, the output of `util::map`
lies in `[to_min, to_max]`, provided the target interval is at most `2^21`
wide (each of the four `f32` roundings loses at most one part in `2^24`,
so a target range that wide cannot push the truncated product past
`to_range`; ranges near `2^24` can, per the counterexample). -/
theorem map_output_in_range (v fromMin fromMax toMin toMax : Nat)
    (invert : Bool) (hf : fromMin < fromMax) (ht : toMin < toMax)
    (hfmax : fromMax < u32Mod) (htmax : toMax < u32Mod)
    (hsmall : toMax - toMin ≤ 2097152) :
    toMin ≤ map v fromMin fromMax toMin toMax invert ∧
      map v fromMin fromMax toMin toMax invert ≤ toMax :=
  map_mem v fromMin fromMax toMin toMax invert hf ht hfmax htmax hsmall

/-- C2 witness: mapping `5` from `[0, 10]` into `[0, 100]` with inversion
stays within `[0, 100]`. -/
theorem map_output_in_range_witness :
    (0 : Nat) ≤ map 5 0 10 0 100 true ∧ map 5 0 10 0 100 true ≤ 100 :=
  map_output_in_range 5 0 10 0 100 true (by decide) (by decide)
    (by decide) (by decide) (by decide)

/-- C3, counterexample: with the profile `sample_min = 10`,
`sample_max = 2757`, half-width `50`, calibrated center `1383` and output
range `[1, 10)`, a raw reading of `10` yields `Low 10` — not `Low 9` as the
claim states: the inverted map returns `to_max - to = 10 - 0`, i.e. the
upper endpoint `10` itself. -/
theorem shoulder_low_magnitude_is_ten :
    Position.new 10 GamepadConfig.default
        (GamepadConfig.default.center_range 1383) ⟨1, 10⟩ = .Low 10 ∧
      Position.Low 10 ≠ Position.Low 9 := by
  refine ⟨by decide, by decide⟩

/-- C3, amended: under the configuration of the claim the three raw
readings map to `Low 10`, `Center` and `High 10` respectively (the extreme
magnitudes are `10 = to_max`, not `9`). -/
theorem position_endpoint_examples :
    Position.new 10 GamepadConfig.default
        (GamepadConfig.default.center_range 1383) ⟨1, 10⟩ = .Low 10 ∧
      Position.new 1383 GamepadConfig.default
        (GamepadConfig.default.center_range 1383) ⟨1, 10⟩ = .Center ∧
      Position.new 2757 GamepadConfig.default
        (GamepadConfig.default.center_range 1383) ⟨1, 10⟩ = .High 10 := by
  refine ⟨by decide, by decide, by decide⟩

/-- C7, counterexample: mapping `1` from `[0, 2]` to `[0, 3]` gives the
exact `f32` product `1.5`; the code truncates it to `1` (`as u32`), whereas
the claimed `round` would give `2` (as the spec-modelled `map_spec` does). -/
theorem map_truncates_not_rounds :
    prodQ 1 0 2 0 3 = 3 / 2 ∧ map 1 0 2 0 3 false = 1 ∧
      map_spec 1 0 2 0 3 false = 2 := by
  refine ⟨by decide, by decide, by decide⟩

/-- C7, amended: the intermediate `to` of `util::map` is the floor
(truncation toward zero) of the `f32`-scaled offset, not its rounding:
whenever the exact product stays below `2^32`, `to` is the unique integer
with `to ≤ product < to + 1`. -/
theorem mapTo_is_floor (v fromMin fromMax toMin toMax : Nat)
    (h : prodQ v fromMin fromMax toMin toMax < (u32Mod : ℚ)) :
    (mapTo v fromMin fromMax toMin toMax : ℚ) ≤
        prodQ v fromMin fromMax toMin toMax ∧
      prodQ v fromMin fromMax toMin toMax <
        mapTo v fromMin fromMax toMin toMax + 1 := by
  have hp0 : 0 ≤ prodQ v fromMin fromMax toMin toMax :=
    prodQ_nonneg v fromMin fromMax toMin toMax
  unfold mapTo f32toU32
  split_ifs with hle
  · have : prodQ v fromMin fromMax toMin toMax = 0 := le_antisymm hle hp0
    rw [this]
    norm_num
  · push_neg at hle
    have hfl0 : 0 ≤ ⌊prodQ v fromMin fromMax toMin toMax⌋ :=
      Int.floor_nonneg.2 hp0
    have hflu : ⌊prodQ v fromMin fromMax toMin toMax⌋ < (u32Mod : ℤ) :=
      Int.floor_lt.2 (by exact_mod_cast h)
    have hmin : min (u32Mod - 1) (Int.toNat ⌊prodQ v fromMin fromMax toMin toMax⌋) =
        Int.toNat ⌊prodQ v fromMin fromMax toMin toMax⌋ := by
      have : (u32Mod : ℤ) = ((u32Mod : Nat) : ℤ) := rfl
      omega
    rw [hmin]
    have hcast : ((Int.toNat ⌊prodQ v fromMin fromMax toMin toMax⌋ : ℕ) : ℚ) =
        (⌊prodQ v fromMin fromMax toMin toMax⌋ : ℚ) := by
      rw [← Int.cast_natCast, Int.toNat_of_nonneg hfl0]
    have hlo := Int.floor_le (prodQ v fromMin fromMax toMin toMax)
    have hhi := Int.lt_floor_add_one (prodQ v fromMin fromMax toMin toMax)
    rw [hcast]
    exact ⟨hlo, hhi⟩

/-- C7 witness: at the counterexample input the product is `1.5` and the
intermediate `to = 1` satisfies `1 ≤ 1.5 < 2`. -/
theorem mapTo_is_floor_witness :
    (mapTo 1 0 2 0 3 : ℚ) ≤ prodQ 1 0 2 0 3 ∧
      prodQ 1 0 2 0 3 < mapTo 1 0 2 0 3 + 1 :=
  mapTo_is_floor 1 0 2 0 3 (by decide)


/-- C6, counterexample: with the default profile values (`sample_min = 10`,
`sample_max = 2757`, half-width `50`) and calibration-at-startup disabled,
the construction gives every axis the dead zone `[1328, 1428)`, centered on
`joystick_max_value / 2 = 1378` — not on the midpoint
`(sample_min + sample_max) / 2 = 1383`, whose dead zone would be
`[1333, 1433)`. -/
theorem default_center_not_midpoint :
    gamepad_new ⟨10, 2757, 50, false⟩ (.ok 0) (.ok 0) (.ok 0) (.ok 0) =
      .ok (⟨1328, 1428⟩, ⟨1328, 1428⟩, ⟨1328, 1428⟩, ⟨1328, 1428⟩) ∧
      GamepadConfig.center_range ⟨10, 2757, 50, false⟩ ((10 + 2757) / 2) =
        ⟨1333, 1433⟩ ∧
      (⟨1328, 1428⟩ : URange) ≠ ⟨1333, 1433⟩ := by
  refine ⟨rfl, rfl, by decide⟩

/-- C6, amended: when calibration-at-startup is not used, every axis's
default dead-zone interval is `center_range(joystick_max_value / 2)` — the
center is half of `sample_max` alone (integer division), not the midpoint
of `[sample_min, sample_max]`. -/
theorem gamepad_default_centers (config : GamepadConfig)
    (r0 r1 r2 r3 : Except Unit Nat) (h : config.use_real_center = false) :
    gamepad_new config r0 r1 r2 r3 =
      .ok (config.center_range (config.joystick_max_value / 2),
        config.center_range (config.joystick_max_value / 2),
        config.center_range (config.joystick_max_value / 2),
        config.center_range (config.joystick_max_value / 2)) := by
  unfold gamepad_new
  rw [h]
  simp

/-- C6 witness: the default profile values with calibration disabled yield
the dead zone `center_range(2757 / 2) = [1328, 1428)` on all four axes. -/
theorem gamepad_default_centers_witness :
    gamepad_new ⟨10, 2757, 50, false⟩ (.ok 7) (.ok 7) (.ok 7) (.ok 7) =
      .ok (⟨1328, 1428⟩, ⟨1328, 1428⟩, ⟨1328, 1428⟩, ⟨1328, 1428⟩) := by
  rw [gamepad_default_centers ⟨10, 2757, 50, false⟩ _ _ _ _ rfl]
  rfl

/-- C8: `read_state` succeeds exactly when all four analog reads succeed,
and any read failure makes the whole call return the sensor error
`Error::Adc` — no partial state. -/
theorem read_state_all_or_nothing (config : GamepadConfig)
    (c0 c1 c2 c3 out : URange) (r0 r1 r2 r3 : Except Unit Nat) :
    ((∃ st, read_state config c0 c1 c2 c3 out r0 r1 r2 r3 = .ok st) ↔
      (∃ v, r0 = .ok v) ∧ (∃ v, r1 = .ok v) ∧ (∃ v, r2 = .ok v) ∧
        (∃ v, r3 = .ok v)) ∧
      (((∃ e, r0 = .error e) ∨ (∃ e, r1 = .error e) ∨ (∃ e, r2 = .error e) ∨
          (∃ e, r3 = .error e)) →
        read_state config c0 c1 c2 c3 out r0 r1 r2 r3 = .error .Adc) := by
  cases r0 <;> cases r1 <;> cases r2 <;> cases r3 <;>
    simp [read_state, read_raw_state, Except.mapError, Bind.bind, Except.bind,
      Pure.pure, Except.pure]

/-- C8 witness: with the shoulder read failing and the other three
succeeding, `read_state` returns `Error::Adc`. -/
theorem read_state_all_or_nothing_witness :
    read_state GamepadConfig.default ⟨0, 0⟩ ⟨0, 0⟩ ⟨0, 0⟩ ⟨0, 0⟩ ⟨1, 10⟩
      (.ok 1383) (.error ()) (.ok 1383) (.ok 1383) = .error .Adc :=
  (read_state_all_or_nothing GamepadConfig.default _ _ _ _ _ _ _ _ _).2
    (Or.inr (Or.inl ⟨(), rfl⟩))

/-- C9: `GamepadConfig::center_range(offset)` subtracts `center_offset`
from `offset` in `u32` arithmetic with no guard; for every `offset` below
`center_offset` the subtraction underflows — the wrapped lower bound lands
at `2^32 - (center_offset - offset)`, above the upper bound, so no valid
dead-zone interval `[offset - w, offset + w)` is produced.  (A debug build
panics on the same underflow; either way the unstated precondition is
`offset ≥ center_offset`.) -/
theorem center_range_underflow (config : GamepadConfig) (offset : Nat)
    (h : offset < config.center_offset)
    (hsum : offset + config.center_offset < u32Mod)
    (hoff2 : 2 * config.center_offset < u32Mod) :
    (config.center_range offset).start =
        u32Mod - (config.center_offset - offset) ∧
      (config.center_range offset).stop = offset + config.center_offset ∧
      (config.center_range offset).stop < (config.center_range offset).start := by
  have hstart : (config.center_range offset).start =
      u32Mod - (config.center_offset - offset) := by
    show (offset + u32Mod - config.center_offset) % u32Mod = _
    have h1 : offset + u32Mod - config.center_offset =
        u32Mod - (config.center_offset - offset) := by
      unfold u32Mod at hsum ⊢
      omega
    rw [h1, Nat.mod_eq_of_lt (by unfold u32Mod at hsum ⊢; omega)]
  have hstop : (config.center_range offset).stop =
      offset + config.center_offset := by
    show (offset + config.center_offset) % u32Mod = _
    exact Nat.mod_eq_of_lt hsum
  refine ⟨hstart, hstop, ?_⟩
  rw [hstart, hstop, show u32Mod = 4294967296 from rfl]
  rw [show u32Mod = 4294967296 from rfl] at hsum hoff2
  omega

/-- C9 witness: calibrating with a clamped startup reading of `10`
(= `sample_min`) under the default half-width `50` wraps the lower bound to
`4294967256`, far above the upper bound `60`. -/
theorem center_range_underflow_witness :
    (GamepadConfig.default.center_range 10).start = u32Mod - 40 ∧
      (GamepadConfig.default.center_range 10).stop = 10 + 50 ∧
      (GamepadConfig.default.center_range 10).stop <
        (GamepadConfig.default.center_range 10).start := by
  have h := center_range_underflow GamepadConfig.default 10
    (by decide) (by decide) (by decide)
  simpa using h


/-- C10, counterexample: with configuration `⟨min 0, max 2, half-width 0,
no calibration⟩`, the empty dead zone `[0, 0)` and output range `[0, 3)`,
the raw value `1` maps to `High 1` in the esp-hal variant but to `High 2`
in the esp-idf variant (whose `util::map`, modelled from the spec, rounds
the scaled product `1.5` instead of truncating it). -/
theorem variants_disagree :
    Position.new 1 ⟨0, 2, 0, false⟩ ⟨0, 0⟩ ⟨0, 3⟩ = .High 1 ∧
      PositionIdf.new 1 ⟨0, 2, 0, false⟩ ⟨0, 0⟩ ⟨0, 3⟩ = .High 2 ∧
      Position.new 1 ⟨0, 2, 0, false⟩ ⟨0, 0⟩ ⟨0, 3⟩ ≠
        PositionIdf.new 1 ⟨0, 2, 0, false⟩ ⟨0, 0⟩ ⟨0, 3⟩ := by
  refine ⟨by decide, by decide, by decide⟩

/-- C10, amended: the two variants' `Position::new` always take the same
branch — for every quadruple they return the same constructor (`Center`,
`Low` or `High`) — and they return fully equal `Position` values at every
input where the esp-hal `util::map` and the spec-modelled esp-idf
`util::map` agree on the two argument tuples the branches can use. -/
theorem variants_same_kind_and_agree (val : Nat) (config : GamepadConfig)
    (cr out : URange) :
    (Position.new val config cr out).sameKind
        (PositionIdf.new val config cr out) ∧
      (map val config.joystick_min_value cr.start out.start out.stop true =
          map_spec val config.joystick_min_value cr.start out.start out.stop
            true →
        map val cr.stop config.joystick_max_value out.start out.stop false =
          map_spec val cr.stop config.joystick_max_value out.start out.stop
            false →
        Position.new val config cr out = PositionIdf.new val config cr out) := by
  unfold Position.new PositionIdf.new
  split_ifs with h1 h2
  · exact ⟨trivial, fun _ _ => rfl⟩
  · exact ⟨trivial, fun hl _ => by rw [hl]⟩
  · exact ⟨trivial, fun _ hh => by rw [hh]⟩

/-- C10 witness: at raw value `0` with configuration `⟨0, 1, 0, false⟩`,
dead zone `[0, 0)` and output `[0, 1)`, both maps agree (both give `High 0`
magnitudes `0`), so the two variants return equal positions. -/
theorem variants_same_kind_and_agree_witness :
    (Position.new 0 ⟨0, 1, 0, false⟩ ⟨0, 0⟩ ⟨0, 1⟩).sameKind
        (PositionIdf.new 0 ⟨0, 1, 0, false⟩ ⟨0, 0⟩ ⟨0, 1⟩) ∧
      Position.new 0 ⟨0, 1, 0, false⟩ ⟨0, 0⟩ ⟨0, 1⟩ =
        PositionIdf.new 0 ⟨0, 1, 0, false⟩ ⟨0, 0⟩ ⟨0, 1⟩ :=
  ⟨(variants_same_kind_and_agree 0 ⟨0, 1, 0, false⟩ ⟨0, 0⟩ ⟨0, 1⟩).1,
    (variants_same_kind_and_agree 0 ⟨0, 1, 0, false⟩ ⟨0, 0⟩ ⟨0, 1⟩).2
      (by decide) (by decide)⟩


theorem positionNew_low_inv (v : Nat) (config : GamepadConfig)
    (cr out : URange) (m : Nat)
    (h : Position.new v config cr out = .Low m) :
    v < cr.start ∧
      m = map v config.joystick_min_value cr.start out.start out.stop true := by
  unfold Position.new at h
  split_ifs at h with hc hv
  simp only [Position.Low.injEq] at h
  exact ⟨hv, h.symm⟩

theorem positionNew_high_inv (v : Nat) (config : GamepadConfig)
    (cr out : URange) (m : Nat)
    (h : Position.new v config cr out = .High m) :
    ¬ v < cr.start ∧
      m = map v cr.stop config.joystick_max_value out.start out.stop false := by
  unfold Position.new at h
  split_ifs at h with hc hv
  simp only [Position.High.injEq] at h
  exact ⟨hv, h.symm⟩

theorem map_invert_sub (v fromMin fromMax toMin toMax : Nat)
    (hf : fromMin < fromMax) (ht : toMin < toMax)
    (hfmax : fromMax < u32Mod) (htmax : toMax < u32Mod)
    (hsmall : toMax - toMin ≤ 2097152) :
    map v fromMin fromMax toMin toMax true =
      toMax - mapTo v fromMin fromMax toMin toMax := by
  have hto := mapTo_le v fromMin fromMax toMin toMax hf ht hfmax htmax hsmall
  unfold map
  rw [if_pos rfl]
  exact u32sub_eq _ _ (by omega) htmax

theorem map_direct_add (v fromMin fromMax toMin toMax : Nat)
    (hf : fromMin < fromMax) (ht : toMin < toMax)
    (hfmax : fromMax < u32Mod) (htmax : toMax < u32Mod)
    (hsmall : toMax - toMin ≤ 2097152) :
    map v fromMin fromMax toMin toMax false =
      mapTo v fromMin fromMax toMin toMax + toMin := by
  have hto := mapTo_le v fromMin fromMax toMin toMax hf ht hfmax htmax hsmall
  unfold map
  rw [if_neg (by simp)]
  exact u32add_eq _ _ (by omega)


/-- C4, counterexample: sample range `[0, 101]`, calibrated dead zone
`center_range(50) = [0, 100)`, output range `[0, 16777219)`.  The raw value
`101` is inside the sample range and strictly above the dead zone, yet its
`High` magnitude is `16777220`, outside `[output_min, output_max]` — for
output ranges this wide the `f32` roundings overshoot (the claim holds only
for narrower output ranges). -/
theorem high_magnitude_escapes_output_range :
    Position.new 101 ⟨0, 101, 50, false⟩
        (GamepadConfig.center_range ⟨0, 101, 50, false⟩ 50) ⟨0, 16777219⟩ =
      .High 16777220 ∧ ¬ ((16777220 : Nat) ≤ 16777219) := by
  refine ⟨by decide, by decide⟩

/-- C4, amended: provided the output range is at most `2^21` wide, every
raw value strictly outside the dead zone produces a `Low`/`High` magnitude
within `[output_min, output_max]` inclusive; the magnitude is monotonically
non-decreasing as the raw value moves away from the dead zone (downward for
`Low`, upward for `High`); and the raw value `sample_min` yields `Low` with
the maximum magnitude `output_max` (the inverted mapping sends the lowest
raw value to the top of the output interval). -/
theorem position_magnitude_bounds_mono (config : GamepadConfig)
    (cr out : URange) (v1 v2 : Nat)
    (hlowf : config.joystick_min_value < cr.start)
    (hcr : cr.start ≤ cr.stop)
    (hhighf : cr.stop < config.joystick_max_value)
    (hout : out.start < out.stop)
    (hjmax : config.joystick_max_value < u32Mod)
    (houtmax : out.stop < u32Mod)
    (hsmall : out.stop - out.start ≤ 2097152) :
    (∀ m, Position.new v1 config cr out = .Low m →
      out.start ≤ m ∧ m ≤ out.stop) ∧
      (∀ m, Position.new v1 config cr out = .High m →
        out.start ≤ m ∧ m ≤ out.stop) ∧
      (v1 ≤ v2 → ∀ m1 m2, Position.new v1 config cr out = .Low m1 →
        Position.new v2 config cr out = .Low m2 → m2 ≤ m1) ∧
      (v1 ≤ v2 → ∀ m1 m2, Position.new v1 config cr out = .High m1 →
        Position.new v2 config cr out = .High m2 → m1 ≤ m2) ∧
      Position.new config.joystick_min_value config cr out = .Low out.stop := by
  have hcrs : cr.start < u32Mod := by omega
  refine ⟨?_, ?_, ?_, ?_, ?_⟩
  · intro m hm
    obtain ⟨_, hm2⟩ := positionNew_low_inv v1 config cr out m hm
    rw [hm2]
    exact map_mem v1 _ _ _ _ true hlowf hout hcrs houtmax hsmall
  · intro m hm
    obtain ⟨_, hm2⟩ := positionNew_high_inv v1 config cr out m hm
    rw [hm2]
    exact map_mem v1 _ _ _ _ false hhighf hout hjmax houtmax hsmall
  · intro h12 m1 m2 h1 h2
    obtain ⟨hv1, he1⟩ := positionNew_low_inv v1 config cr out m1 h1
    obtain ⟨hv2, he2⟩ := positionNew_low_inv v2 config cr out m2 h2
    rw [he1, he2, map_invert_sub v1 _ _ _ _ hlowf hout hcrs houtmax hsmall,
      map_invert_sub v2 _ _ _ _ hlowf hout hcrs houtmax hsmall]
    have hmono := mapTo_mono v1 v2 config.joystick_min_value cr.start
      out.start out.stop h12 hlowf.le hcrs
    omega
  · intro h12 m1 m2 h1 h2
    obtain ⟨hv1, he1⟩ := positionNew_high_inv v1 config cr out m1 h1
    obtain ⟨hv2, he2⟩ := positionNew_high_inv v2 config cr out m2 h2
    rw [he1, he2, map_direct_add v1 _ _ _ _ hhighf hout hjmax houtmax hsmall,
      map_direct_add v2 _ _ _ _ hhighf hout hjmax houtmax hsmall]
    have hmono := mapTo_mono v1 v2 cr.stop config.joystick_max_value
      out.start out.stop h12 hhighf.le hjmax
    omega
  · have hnc : cr.containsVal config.joystick_min_value = false := by
      simp only [URange.containsVal, decide_eq_false_iff_not, not_and]
      intro hle
      omega
    unfold Position.new
    rw [hnc]
    rw [if_neg (by simp), if_pos hlowf]
    have hmap : map config.joystick_min_value config.joystick_min_value
        cr.start out.start out.stop true = out.stop := by
      rw [map_invert_sub _ _ _ _ _ hlowf hout hcrs houtmax hsmall,
        mapTo_self_min _ _ _ _ (by omega)]
      omega
    rw [hmap]

/-- C4 witness: the claim's own configuration (`sample_min = 10`,
`sample_max = 2757`, dead zone `[1333, 1433)`, output `[1, 10)`): readings
`100 ≤ 1000` below the dead zone give magnitudes `10 ≥ 4` within `[1, 10]`,
and the reading `10 = sample_min` gives the maximum magnitude `10`. -/
theorem position_magnitude_bounds_mono_witness :
    ((1 : Nat) ≤ 10 ∧ (10 : Nat) ≤ 10) ∧ ((4 : Nat) ≤ 10) ∧
      Position.new 10 GamepadConfig.default
        (GamepadConfig.default.center_range 1383) ⟨1, 10⟩ = .Low 10 :=
  have h := position_magnitude_bounds_mono GamepadConfig.default
    (GamepadConfig.default.center_range 1383) ⟨1, 10⟩ 100 1000
    (by decide) (by decide) (by decide) (by decide) (by decide) (by decide)
    (by decide)
  ⟨h.1 10 (by decide), h.2.2.1 (by decide) 10 4 (by decide) (by decide),
    h.2.2.2.2⟩


end Armbot
